import Mathlib

/-!
Verification development for the album-poster-maker renderer.

The source under scrutiny:
* `src/static/helpers.js` — paper-size tables, `mmToPx`, `getCanvasSize`,
  `getPaperSizeMM`, and the greedy word-wrapping primitive `wrapLines`;
* `src/unnamed/part_000` — `drawPosterTemplate1` (two near-identical
  variants; the first variant, lines 21-178, is the one cited by the
  claims except where the second variant's artist handling is discussed);
* `src/static/posterTemplate2.js` — `drawPosterTemplate2`.

Strings are modelled as `List Char`.  The canvas text-measurement
capability (`ctx.measureText(s).width` under a font of a given pixel
size) is modelled by an additive per-character width function
`u : Char → ℚ`, with the measured width of `s` at font size `f` being
`f * Σ u c` — i.e. widths are per-character, non-negative, and scale
linearly with the font size, which is the standard abstraction of a
metric font.  Rational numbers stand in for JS floating point
throughout; `Math.floor`/`Math.ceil`/`Math.round` become
`Int.floor`/`Int.ceil`/`round`.
-/

namespace AlbumPoster

/-- Strings are lists of characters. -/
abbrev Str := List Char

/-- Measured width of a string under a per-character width function.
Models `ctx.measureText(s).width` for the active font. -/
def measure (cw : Char → ℚ) (s : Str) : ℚ := (s.map cw).sum

/-- JS `text.split(' ')`: split at every single space character, keeping
empty pieces (`"".split(' ') = [""]`, `"a  b".split(' ') = ["a","","b"]`). -/
def splitOnSpace : Str → List Str
  | [] => [[]]
  | c :: rest =>
    if c = ' ' then [] :: splitOnSpace rest
    else
      match splitOnSpace rest with
      | [] => [[c]]
      | w :: ws => (c :: w) :: ws

/-- JS `String.prototype.trim`, specialised to the space character (the
only whitespace the wrapping algorithm itself introduces or splits on):
drop spaces from both ends. -/
def trim (s : Str) : Str :=
  ((s.dropWhile (fun c => c = ' ')).reverse.dropWhile (fun c => c = ' ')).reverse

/-- The word sequence of a string: its nonempty space-separated pieces. -/
def wordsOf (s : Str) : List Str :=
  (splitOnSpace s).filter (fun w => decide (w ≠ []))

/-- Joining a list of lines with single spaces (JS `lines.join(' ')`). -/
def joinSp : List Str → Str
  | [] => []
  | [l] => l
  | l :: l' :: ls => l ++ ' ' :: joinSp (l' :: ls)

/-- Concatenated word sequences of a list of lines. -/
def wordsOfLines (L : List Str) : List Str :=
  L.foldr (fun l acc => wordsOf l ++ acc) []

/-- One step of the greedy accumulation loop of `wrapLines`
(helpers.js lines 64-72).  State is `(lines, line)`. -/
def wrapStep (cw : Char → ℚ) (maxWidth : ℚ) (st : List Str × Str) (word : Str) :
    List Str × Str :=
  let testLine := st.2 ++ word ++ [' ']
  if measure cw testLine > maxWidth ∧ st.2 ≠ [] then
    (st.1 ++ [trim st.2], word ++ [' '])
  else
    (st.1, testLine)

/-- helpers.js `wrapLines(ctx, text, maxWidth)` (lines 59-75): greedy
word wrapping of `text` to width `maxWidth` under the active font `cw`. -/
def wrapLines (cw : Char → ℚ) (text : Str) (maxWidth : ℚ) : List Str :=
  let r := (splitOnSpace text).foldl (wrapStep cw maxWidth) ([], [])
  if (trim r.2).length > 0 then r.1 ++ [trim r.2] else r.1

/-- Recursive presentation of the same greedy loop, used for proofs;
`wrapLines_eq_wrapRec` shows it agrees with the `foldl` form. -/
def wrapRec (cw : Char → ℚ) (maxWidth : ℚ) : List Str → Str → List Str
  | [], line => if (trim line).length > 0 then [trim line] else []
  | w :: ws, line =>
    if measure cw (line ++ w ++ [' ']) > maxWidth ∧ line ≠ [] then
      trim line :: wrapRec cw maxWidth ws (w ++ [' '])
    else
      wrapRec cw maxWidth ws (line ++ w ++ [' '])

/-- Consume words into the current line until the first overflow break:
returns the line at the moment of the break together with the words not
yet consumed (the breaking word included).  Auxiliary view of `wrapRec`. -/
def chomp (cw : Char → ℚ) (maxWidth : ℚ) : List Str → Str → Str × List Str
  | [], line => (line, [])
  | w :: ws, line =>
    if measure cw (line ++ w ++ [' ']) > maxWidth ∧ line ≠ [] then
      (line, w :: ws)
    else
      chomp cw maxWidth ws (line ++ w ++ [' '])

/-! ### Paper sizes (helpers.js lines 7-50) -/

/-- helpers.js `PAPER_MM`: ISO 216 paper sizes in millimetres; `none`
models an absent key of the JS object. -/
def PAPER_MM : String → Option (ℚ × ℚ)
  | "A0" => some (841, 1189)
  | "A1" => some (594, 841)
  | "A2" => some (420, 594)
  | "A3" => some (297, 420)
  | "A4" => some (210, 297)
  | "A5" => some (148, 210)
  | "A6" => some (105, 148)
  | _ => none

/-- helpers.js `mmToPx(mm, dpi) = Math.round((mm / 25.4) * dpi)`. -/
def mmToPx (mm dpi : ℚ) : ℤ := round (mm / 25.4 * dpi)

/-- helpers.js `getCanvasSize` (lines 34-39); `PAPER_MM[format] || PAPER_MM.A4`
is the `getD` fallback. -/
def getCanvasSize (format : String) (dpi : ℚ) (orientation : String) : ℤ × ℤ :=
  let f := (PAPER_MM format).getD (210, 297)
  let wmm := if orientation = "portrait" then f.1 else f.2
  let hmm := if orientation = "portrait" then f.2 else f.1
  (mmToPx wmm dpi, mmToPx hmm dpi)

/-- helpers.js `getPaperSizeMM` (lines 47-50). -/
def getPaperSizeMM (format : String) (orientation : String) : ℚ × ℚ :=
  let f := (PAPER_MM format).getD (210, 297)
  if orientation = "portrait" then (f.1, f.2) else (f.2, f.1)

/-! ### Tracklist auto-fit state and loops -/

/-- Mutable tracklist typography of `drawPosterTemplate1`
(part_000 lines 44-46). -/
structure Typo1 where
  trackFontSize : ℚ
  lineHeight : ℚ
  columnWidth : ℚ
deriving DecidableEq

/-- Mutable tracklist typography of `drawPosterTemplate2`
(posterTemplate2.js lines 45-47). -/
structure Typo2 where
  trackFontSize : ℚ
  lineHeight : ℚ
  columnWidth : ℚ
deriving DecidableEq

/-- Template 1 shrink step (part_000 lines 67-69): font ×0.95,
line height ×1.04, column width ×0.84. -/
def shrink1 (st : Typo1) : Typo1 :=
  ⟨st.trackFontSize * 0.95, st.lineHeight * 1.04, st.columnWidth * 0.84⟩

/-- Template 2 shrink step (posterTemplate2.js lines 157-158): font ×0.95,
line height ×0.97; the column width is not touched. -/
def shrink2 (st : Typo2) : Typo2 :=
  ⟨st.trackFontSize * 0.95, st.lineHeight * 0.97, st.columnWidth⟩

/-- Template 1 `totalLines` (part_000 lines 52-57): total wrapped line
count of the uppercased tracks at a given font size and column width. -/
def totalLines1 (u : Char → ℚ) (tracks : List Str) (fontSize colWidth : ℚ) : ℕ :=
  tracks.foldl
    (fun acc track =>
      acc + (wrapLines (fun c => fontSize * u c) (track.map Char.toUpper) colWidth).length)
    0

/-- `Math.ceil(total / rowsPerColumn)` with `rowsPerColumn = 5`
(part_000 line 61). -/
def cols1 (total : ℕ) : ℤ := Int.ceil ((total : ℚ) / 5)

/-- Template 1 required footprint (part_000 line 62):
`cols * columnWidth + (cols - 1) * columnGap` with `columnGap = 14 * scale`. -/
def totalWidth1 (u : Char → ℚ) (tracks : List Str) (scale : ℚ) (st : Typo1) : ℚ :=
  let cols := cols1 (totalLines1 u tracks st.trackFontSize st.columnWidth)
  (cols : ℚ) * st.columnWidth + ((cols : ℚ) - 1) * (14 * scale)

/-- Template 1 loop exit condition (part_000 line 64):
`totalWidth <= canvasWidth - 2 * padding || trackFontSize < 8`
with `padding = 110 * scale`. -/
def exit1 (u : Char → ℚ) (tracks : List Str) (canvasWidth scale : ℚ) (st : Typo1) : Prop :=
  totalWidth1 u tracks scale st ≤ canvasWidth - 2 * (110 * scale) ∨ st.trackFontSize < 8

instance exit1.dec (u : Char → ℚ) (tracks : List Str) (canvasWidth scale : ℚ)
    (st : Typo1) : Decidable (exit1 u tracks canvasWidth scale st) := by
  unfold exit1; infer_instance

/-- Template 1 `while (true)` auto-fit loop (part_000 lines 59-70),
with explicit fuel.  `fitLoop1 n st` is the state after at most `n`
shrink iterations, stopping as soon as the exit condition holds. -/
def fitLoop1 (u : Char → ℚ) (tracks : List Str) (canvasWidth scale : ℚ) :
    ℕ → Typo1 → Typo1
  | 0, st => st
  | n + 1, st =>
    if exit1 u tracks canvasWidth scale st then st
    else fitLoop1 u tracks canvasWidth scale n (shrink1 st)

/-- The numbered label wrapped by Template 2 (posterTemplate2.js line 150):
the JS template literal `i + 1. track`. -/
def trackLabel (i : ℕ) (track : Str) : Str :=
  Nat.toDigits 10 (i + 1) ++ '.' :: ' ' :: track

/-- Template 2 total wrapped line count (posterTemplate2.js lines 148-152). -/
def totalLines2 (u : Char → ℚ) (tracks : List Str) (fontSize colWidth : ℚ) : ℕ :=
  (tracks.enum.map
    (fun p => (wrapLines (fun c => fontSize * u c) (trackLabel p.1 p.2) colWidth).length)).sum

/-- `Math.floor(availableHeight / lineHeight)` (posterTemplate2.js line 144). -/
def linesPerColumn2 (availH : ℚ) (st : Typo2) : ℤ := Int.floor (availH / st.lineHeight)

/-- `maxLines = linesPerColumn * totalColumns` with `totalColumns = 2`
(posterTemplate2.js line 145). -/
def maxLines2 (availH : ℚ) (st : Typo2) : ℤ := linesPerColumn2 availH st * 2

/-- Template 2 loop exit condition (posterTemplate2.js line 154):
`totalLines <= maxLines || trackFontSize < 10`. -/
def exit2 (u : Char → ℚ) (tracks : List Str) (availH : ℚ) (st : Typo2) : Prop :=
  (totalLines2 u tracks st.trackFontSize st.columnWidth : ℤ) ≤ maxLines2 availH st ∨
    st.trackFontSize < 10

instance exit2.dec (u : Char → ℚ) (tracks : List Str) (availH : ℚ)
    (st : Typo2) : Decidable (exit2 u tracks availH st) := by
  unfold exit2; infer_instance

/-- Template 2 `while (true)` auto-fit loop (posterTemplate2.js
lines 142-159), with explicit fuel. -/
def fitLoop2 (u : Char → ℚ) (tracks : List Str) (availH : ℚ) :
    ℕ → Typo2 → Typo2
  | 0, st => st
  | n + 1, st =>
    if exit2 u tracks availH st then st
    else fitLoop2 u tracks availH n (shrink2 st)

/-- Template 1 initial typography (part_000 lines 44-46). -/
def initTypo1 (scale : ℚ) : Typo1 := ⟨40 * scale, 42 * scale, 660 * scale⟩

/-- Template 2 initial typography (posterTemplate2.js lines 45-47). -/
def initTypo2 (scale : ℚ) : Typo2 := ⟨50 * scale, 60 * scale, 680 * scale⟩

/-! ### Album record and text fallbacks -/

/-- The Album Record consumed by both templates.  Optional JS fields
(possibly `undefined`) are `Option`s; a missing `tracks` array is
`none`, distinct from an empty one. -/
structure Album where
  name : Str
  artist : Option Str
  year : Option Str
  release_date : Option Str
  length : Option Str
  label : Option Str
  tracks : Option (List Str)

/-- `album.tracks && album.tracks.length > 0` (part_000 line 51,
posterTemplate2.js line 134). -/
def hasTracks (a : Album) : Bool :=
  match a.tracks with
  | none => false
  | some ts => decide (ts ≠ [])

/-- The `"UNKNOWN ARTIST"` fallback string. -/
def UNKNOWN_ARTIST : Str := ("UNKNOWN ARTIST").toList

/-- The `"----"` year placeholder. -/
def YEAR_PLACEHOLDER : Str := ("----").toList

/-- Template 2 fallback notice (posterTemplate2.js line 221). -/
def NO_TRACKS : Str := ("No tracks available").toList

/-- `album.year || "----"` (part_000 line 98): a missing or empty
(falsy) year degrades to the placeholder. -/
def yearLabel : Option Str → Str
  | none => YEAR_PLACEHOLDER
  | some y => if y = [] then YEAR_PLACEHOLDER else y

/-- `album.artist?.toUpperCase() || "UNKNOWN ARTIST"` (part_000,
first variant, line 135): optional chaining turns a missing artist into
`undefined`, and `||` catches both that and the empty string. -/
def artistLabel1 : Option Str → Str
  | none => UNKNOWN_ARTIST
  | some a => if a = [] then UNKNOWN_ARTIST else a.map Char.toUpper

/-- `album.artist.toUpperCase() || "UNKNOWN ARTIST"` (part_000,
second variant, line 266): without optional chaining, a missing artist
makes `toUpperCase` throw a TypeError, modelled as `Except.error ()`. -/
def artistLabel1v2 : Option Str → Except Unit Str
  | none => Except.error ()
  | some a => Except.ok (if a = [] then UNKNOWN_ARTIST else a.map Char.toUpper)

/-- `album.artist || "UNKNOWN ARTIST"` (posterTemplate2.js line 107). -/
def artistLabel2 : Option Str → Str
  | none => UNKNOWN_ARTIST
  | some a => if a = [] then UNKNOWN_ARTIST else a

/-- posterTemplate2.js `drawInfoBlock(title, value)` (lines 196-210):
the texts drawn for one metadata block.  A falsy value (missing field or
empty string) draws nothing at all. -/
def drawInfoBlock (title : Str) : Option Str → List Str
  | none => []
  | some v => if v = [] then [] else [title, v]

/-! ### Title auto-fit loops -/

/-- Template 1 title shrink loop (part_000 lines 105-112):
`while (measureText(name.toUpperCase()).width * 0.85 > maxTitleWidth
&& size > 20) size *= 0.95`, with explicit fuel. -/
def titleFit1 (u : Char → ℚ) (name : Str) (maxTitleWidth : ℚ) :
    ℕ → ℚ → ℚ
  | 0, fs => fs
  | n + 1, fs =>
    if measure (fun c => fs * u c) (name.map Char.toUpper) * 0.85 > maxTitleWidth ∧ fs > 20 then
      titleFit1 u name maxTitleWidth n (fs * 0.95)
    else fs

/-- Template 2 title shrink loop (posterTemplate2.js lines 73-84):
`while (measureText(album.name || '').width > maxTitleWidth && size > 20)`. -/
def titleFit2 (u : Char → ℚ) (name : Str) (maxTitleWidth : ℚ) :
    ℕ → ℚ → ℚ
  | 0, fs => fs
  | n + 1, fs =>
    if measure (fun c => fs * u c) name > maxTitleWidth ∧ fs > 20 then
      titleFit2 u name maxTitleWidth n (fs * 0.95)
    else fs

/-! ### Placement and palette rendering -/

/-- Template 1 per-line placement (part_000 lines 146-160): column-major
fill at 5 rows per column; the column index is unbounded (overflowing
columns are still drawn).  State: `((col, row), emitted lines)`. -/
def placeT1 (padding tracksStartY columnGap : ℚ) (st : Typo1)
    (p : (ℕ × ℕ) × List (Str × ℚ × ℚ)) (line : Str) :
    (ℕ × ℕ) × List (Str × ℚ × ℚ) :=
  let col := if p.1.2 ≥ 5 then p.1.1 + 1 else p.1.1
  let row := if p.1.2 ≥ 5 then 0 else p.1.2
  let x := padding + (col : ℚ) * (st.columnWidth + columnGap)
  let y := tracksStartY + (row : ℚ) * st.lineHeight
  ((col, row + 1), p.2 ++ [(line, x, y)])

/-- Template 2 per-line placement (posterTemplate2.js lines 166-180):
2-column grid, lines beyond the second column are dropped and do not
advance `currentLine`.  Integer division/mod model `Math.floor(cur/lpc)`
and `cur % lpc` for the non-negative quantities arising in a render.
State: `(currentLine, emitted lines)`. -/
def placeT2 (padding tracksStartY columnGap : ℚ) (st : Typo2) (lpc : ℤ)
    (p : ℕ × List (Str × ℚ × ℚ)) (line : Str) :
    ℕ × List (Str × ℚ × ℚ) :=
  let column : ℤ := (p.1 : ℤ) / lpc
  if column ≥ 2 then p
  else
    let row : ℤ := (p.1 : ℤ) % lpc
    (p.1 + 1,
      p.2 ++ [(line, padding + (column : ℚ) * (st.columnWidth + columnGap),
               tracksStartY + (row : ℚ) * st.lineHeight)])

/-- Template 1 footer palette strip (part_000 lines 166-173): the filled
rectangles `(x, width, color)`, one per palette color, in palette order,
each of width `(canvasWidth - padding * 2) / colors.length`. -/
def footerRects (canvasWidth scale : ℚ) {α : Type} (colors : List α) :
    List (ℚ × ℚ × α) :=
  colors.enum.map (fun p =>
    (110 * scale + (p.1 : ℚ) * ((canvasWidth - (110 * scale) * 2) / (colors.length : ℚ)),
     (canvasWidth - (110 * scale) * 2) / (colors.length : ℚ), p.2))

/-! ### Template render passes

Each render pass is modelled as a pure function from the album, the
canvas dimensions, the palette (the external color extractor's output)
and the font-metric abstraction `u` to a record of what got drawn.
`fuel` bounds the shrink loops (the termination theorem shows a
sufficient fuel always exists). -/

/-- Observable output of `drawPosterTemplate1` (part_000 lines 26-174,
first variant). -/
structure Render1 (α : Type) where
  finalTypo : Typo1
  yearText : Str
  titleText : Str
  titleFontSize : ℚ
  coverDrawn : Bool
  artistText : Str
  trackTexts : List (Str × ℚ × ℚ)
  footer : List (ℚ × ℚ × α)

/-- Observable output of `drawPosterTemplate2`
(posterTemplate2.js lines 33-223). -/
structure Render2 (α : Type) where
  finalTypo : Typo2
  bgDrawn : Bool
  coverDrawn : Bool
  titleText : Str
  titleFontSize : ℚ
  artistText : Str
  paletteSquares : List (ℚ × α)
  trackTexts : List (Str × ℚ × ℚ)
  infoTexts : List Str
  fallbackText : Option Str

/-- `drawPosterTemplate1` (part_000, first variant): the draw pass run
after the cover bitmap loads. -/
def drawPosterTemplate1 (u : Char → ℚ) (album : Album)
    (canvasWidth canvasHeight : ℚ) {α : Type} (palette : List α) (fuel : ℕ) :
    Render1 α :=
  let scale := canvasWidth / 2480
  let padding := 110 * scale
  let imageSize := 2250 * scale
  let tracks := album.tracks.getD []
  let st0 := initTypo1 scale
  let stF := if hasTracks album then fitLoop1 u tracks canvasWidth scale fuel st0 else st0
  let imageY := padding + 380 * scale
  let tracksStartY := imageY + imageSize + 250 * scale
  { finalTypo := stF
    yearText := yearLabel album.year
    titleText := album.name.map Char.toUpper
    titleFontSize := titleFit1 u album.name (canvasWidth - 2 * padding) fuel (170 * scale)
    coverDrawn := true
    artistText := artistLabel1 album.artist
    trackTexts :=
      if hasTracks album then
        ((tracks.map (fun t =>
            wrapLines (fun c => stF.trackFontSize * u c) (t.map Char.toUpper) stF.columnWidth)).foldl
          (fun p lines => lines.foldl (placeT1 padding tracksStartY (14 * scale) stF) p)
          ((0, 0), [])).2
      else []
    footer := footerRects canvasWidth scale palette }

/-- `drawPosterTemplate2` (posterTemplate2.js): the draw pass run after
the cover bitmap loads. -/
def drawPosterTemplate2 (u : Char → ℚ) (album : Album)
    (canvasWidth canvasHeight : ℚ) {α : Type} (palette : List α) (fuel : ℕ) :
    Render2 α :=
  let scale := canvasWidth / 2480
  let padding := 110 * scale
  let columnGap := 200 * scale
  let baseTitleFontSize := 130 * scale
  let st0 := initTypo2 scale
  let imageSize := 2250 * scale
  let imageY := padding
  let titleFS := titleFit2 u album.name (canvasWidth - 2 * padding) fuel baseTitleFontSize
  let titleY := imageY + imageSize + titleFS * 1.2
  let artistFontSize := baseTitleFontSize * 0.5
  let artistY := titleY + artistFontSize + 40 * scale
  let lineY := artistY + 60 * scale
  let tracksStartY := lineY + 100 * scale
  let availH := canvasHeight - tracksStartY - padding
  let tracks := album.tracks.getD []
  let stF := if hasTracks album then fitLoop2 u tracks availH fuel st0 else st0
  let squareSize := artistFontSize * 1.2
  let paletteX := canvasWidth - padding - (palette.length : ℚ) * (squareSize + 8 * scale)
  { finalTypo := stF
    bgDrawn := true
    coverDrawn := true
    titleText := album.name
    titleFontSize := titleFS
    artistText := artistLabel2 album.artist
    paletteSquares :=
      palette.enum.map (fun p => (paletteX + (p.1 : ℚ) * (squareSize + 8 * scale), p.2))
    trackTexts :=
      if hasTracks album then
        ((tracks.enum.map (fun p =>
            wrapLines (fun c => stF.trackFontSize * u c) (trackLabel p.1 p.2) stF.columnWidth)).foldl
          (fun q lines =>
            lines.foldl
              (placeT2 padding tracksStartY columnGap stF (linesPerColumn2 availH stF)) q)
          (0, [])).2
      else []
    infoTexts :=
      if hasTracks album then
        drawInfoBlock (("Release Date").toList) album.release_date ++
        drawInfoBlock (("Album Length").toList) album.length ++
        drawInfoBlock (("Record Label").toList) album.label
      else []
    fallbackText := if hasTracks album then none else some NO_TRACKS }

/-! ### Basic facts about the measurement model -/

theorem measure_nonneg (cw : Char → ℚ) (hcw : ∀ c, 0 ≤ cw c) (s : Str) :
    0 ≤ measure cw s := by
  apply List.sum_nonneg
  intro x hx
  obtain ⟨c, _, rfl⟩ := List.mem_map.mp hx
  exact hcw c

theorem measure_append (cw : Char → ℚ) (a b : Str) :
    measure cw (a ++ b) = measure cw a + measure cw b := by
  simp [measure]

theorem measure_le_of_suffix (cw : Char → ℚ) (hcw : ∀ c, 0 ≤ cw c)
    {a b : Str} (h : a <:+ b) : measure cw a ≤ measure cw b := by
  obtain ⟨t, rfl⟩ := h
  rw [measure_append]
  have := measure_nonneg cw hcw t
  linarith

theorem measure_le_of_sublist (cw : Char → ℚ) (hcw : ∀ c, 0 ≤ cw c)
    {a b : Str} (h : List.Sublist a b) : measure cw a ≤ measure cw b := by
  induction h with
  | slnil => exact le_refl _
  | cons c _ ih =>
    have := hcw c
    simp only [measure, List.map_cons, List.sum_cons] at *
    linarith
  | cons₂ c _ ih =>
    simp only [measure, List.map_cons, List.sum_cons] at *
    linarith

/-! ### Facts about `splitOnSpace`, `trim` and `wordsOf` -/

theorem splitOnSpace_ne_nil (s : Str) : splitOnSpace s ≠ [] := by
  cases s with
  | nil => simp [splitOnSpace]
  | cons c rest =>
    by_cases h : c = ' '
    · simp [splitOnSpace, h]
    · simp only [splitOnSpace, if_neg h]
      cases splitOnSpace rest <;> simp

theorem splitOnSpace_no_space (s : Str) : ∀ w ∈ splitOnSpace s, ' ' ∉ w := by
  induction s with
  | nil => intro w hw; simp [splitOnSpace] at hw; simp [hw]
  | cons c rest ih =>
    intro w hw
    by_cases h : c = ' '
    · simp only [splitOnSpace, if_pos h, List.mem_cons] at hw
      rcases hw with rfl | hw
      · simp
      · exact ih w hw
    · simp only [splitOnSpace, if_neg h] at hw
      rcases hr : splitOnSpace rest with _ | ⟨w0, ws⟩
      · exact absurd hr (splitOnSpace_ne_nil rest)
      · rw [hr] at hw
        simp only [List.mem_cons] at hw
        rcases hw with rfl | hw
        · intro hmem
          rcases List.mem_cons.mp hmem with rfl | hmem
          · exact h rfl
          · exact ih w0 (hr ▸ List.mem_cons_self w0 ws) hmem
        · exact ih w (hr ▸ List.mem_cons_of_mem w0 hw)

theorem splitOnSpace_of_no_space {s : Str} (h : ' ' ∉ s) :
    splitOnSpace s = [s] := by
  induction s with
  | nil => rfl
  | cons c rest ih =>
    have hc : ¬ c = ' ' := fun hc => h (hc ▸ List.mem_cons_self c rest)
    have hrest : ' ' ∉ rest := fun hm => h (List.mem_cons_of_mem c hm)
    simp only [splitOnSpace, if_neg hc, ih hrest]

theorem splitOnSpace_cons_space (rest : Str) :
    splitOnSpace (' ' :: rest) = [] :: splitOnSpace rest := by
  simp [splitOnSpace]

theorem splitOnSpace_cons_of_ne {c : Char} (h : ¬ c = ' ') (rest : Str) :
    splitOnSpace (c :: rest) =
      match splitOnSpace rest with
      | [] => [[c]]
      | w :: ws => (c :: w) :: ws := by
  simp [splitOnSpace, h]

theorem splitOnSpace_append_space (a b : Str) :
    splitOnSpace (a ++ ' ' :: b) = splitOnSpace a ++ splitOnSpace b := by
  induction a with
  | nil => simp [splitOnSpace]
  | cons c rest ih =>
    by_cases h : c = ' '
    · subst h
      rw [List.cons_append, splitOnSpace_cons_space, ih, splitOnSpace_cons_space,
        List.cons_append]
    · rw [List.cons_append, splitOnSpace_cons_of_ne h, ih, splitOnSpace_cons_of_ne h]
      rcases hr : splitOnSpace rest with _ | ⟨w0, ws⟩
      · exact absurd hr (splitOnSpace_ne_nil rest)
      · simp

theorem dropWhile_of_forall_not {p : Char → Bool} :
    ∀ {s : Str}, (∀ c ∈ s, ¬ p c = true) → s.dropWhile p = s := by
  intro s h
  cases s with
  | nil => rfl
  | cons c rest =>
    exact List.dropWhile_cons_of_neg (h c (List.mem_cons_self c rest))

theorem trim_append_space {w : Str} (h : ' ' ∉ w) : trim (w ++ [' ']) = w := by
  have hfalse : ∀ c ∈ w, ¬ (decide (c = ' ')) = true := by
    intro c hc
    simp only [decide_eq_true_eq]
    intro hcs; exact h (hcs ▸ hc)
  unfold trim
  cases w with
  | nil => rfl
  | cons c rest =>
    have step1 : (c :: rest ++ [' ']).dropWhile (fun x => decide (x = ' '))
        = c :: rest ++ [' '] :=
      List.dropWhile_cons_of_neg (hfalse c (List.mem_cons_self c rest))
    rw [step1]
    have step2 : (c :: rest ++ [' ']).reverse = ' ' :: (rest.reverse ++ [c]) := by
      simp
    rw [step2, List.dropWhile_cons_of_pos (by simp)]
    have step3 : (rest.reverse ++ [c]).dropWhile (fun x => decide (x = ' '))
        = rest.reverse ++ [c] := by
      apply dropWhile_of_forall_not
      intro x hx
      rcases List.mem_append.mp hx with hx | hx
      · exact hfalse x (List.mem_cons_of_mem c (List.mem_reverse.mp hx))
      · have : x = c := by simpa using hx
        exact this ▸ hfalse c (List.mem_cons_self c rest)
    rw [step3]
    simp

theorem trim_nil : trim [] = [] := rfl

theorem trim_sublist (s : Str) : List.Sublist (trim s) s := by
  unfold trim
  have h1 : List.Sublist
      ((s.dropWhile (fun c => decide (c = ' '))).reverse.dropWhile (fun c => decide (c = ' ')))
      ((s.dropWhile (fun c => decide (c = ' '))).reverse) := List.dropWhile_sublist _
  have h2 := h1.reverse
  simp only [List.reverse_reverse] at h2
  exact h2.trans (List.dropWhile_sublist _)

theorem trim_eq_nil_iff {s : Str} : trim s = [] ↔ ∀ c ∈ s, c = ' ' := by
  unfold trim
  rw [List.reverse_eq_nil_iff, List.dropWhile_eq_nil_iff]
  constructor
  · intro h c hc
    by_cases hmem : c ∈ s.dropWhile (fun x => decide (x = ' '))
    · simpa using h c (by simpa using hmem)
    · have hs := List.takeWhile_append_dropWhile (fun x => decide (x = ' ')) s
      rw [← hs] at hc
      rcases List.mem_append.mp hc with hc | hc
      · simpa using List.mem_takeWhile_imp hc
      · exact absurd hc hmem
  · intro h c hc
    have : c ∈ s := (List.dropWhile_sublist _).subset (by simpa using hc)
    simpa using h c this

theorem mem_of_mem_trim {s : Str} {c : Char} (h : c ∈ trim s) : c ∈ s :=
  (trim_sublist s).subset h

theorem wordsOf_nil : wordsOf [] = [] := rfl

theorem wordsOf_cons_space (s : Str) : wordsOf (' ' :: s) = wordsOf s := by
  simp [wordsOf, splitOnSpace]

theorem wordsOf_append_space_mid (a b : Str) :
    wordsOf (a ++ ' ' :: b) = wordsOf a ++ wordsOf b := by
  simp [wordsOf, splitOnSpace_append_space]

theorem wordsOf_append_space (s : Str) : wordsOf (s ++ [' ']) = wordsOf s := by
  have := wordsOf_append_space_mid s []
  simpa [wordsOf_nil] using this

theorem wordsOf_of_no_space {w : Str} (h : ' ' ∉ w) :
    wordsOf w = if w = [] then [] else [w] := by
  by_cases hw : w = []
  · simp [hw, wordsOf_nil]
  · simp [wordsOf, splitOnSpace_of_no_space h, hw]

theorem wordsOf_append_all_space (s : Str) :
    ∀ r : Str, (∀ c ∈ r, c = ' ') → wordsOf (s ++ r) = wordsOf s := by
  intro r
  induction r generalizing s with
  | nil => simp
  | cons c r' ih =>
    intro h
    have hc : c = ' ' := h c (List.mem_cons_self c r')
    subst hc
    have : s ++ ' ' :: r' = (s ++ [' ']) ++ r' := by simp
    rw [this, ih (s ++ [' ']) (fun x hx => h x (List.mem_cons_of_mem _ hx)),
      wordsOf_append_space]

theorem wordsOf_trimLeft (s : Str) :
    wordsOf (s.dropWhile (fun c => decide (c = ' '))) = wordsOf s := by
  induction s with
  | nil => rfl
  | cons c rest ih =>
    by_cases h : c = ' '
    · subst h
      rw [List.dropWhile_cons_of_pos (by simp), ih, wordsOf_cons_space]
    · rw [List.dropWhile_cons_of_neg (by simpa using h)]

theorem wordsOf_trim (s : Str) : wordsOf (trim s) = wordsOf s := by
  unfold trim
  set t := s.dropWhile (fun c => decide (c = ' ')) with ht
  have hdecomp : t = (t.reverse.dropWhile (fun c => decide (c = ' '))).reverse ++
      (t.reverse.takeWhile (fun c => decide (c = ' '))).reverse := by
    have := List.takeWhile_append_dropWhile (fun c => decide (c = ' ')) t.reverse
    calc t = t.reverse.reverse := by rw [List.reverse_reverse]
    _ = (t.reverse.takeWhile (fun c => decide (c = ' ')) ++
          t.reverse.dropWhile (fun c => decide (c = ' '))).reverse := by rw [this]
    _ = _ := by rw [List.reverse_append]
  have hsp : ∀ c ∈ (t.reverse.takeWhile (fun c => decide (c = ' '))).reverse, c = ' ' := by
    intro c hc
    have := List.mem_takeWhile_imp (by simpa using hc)
    simpa using this
  calc wordsOf (t.reverse.dropWhile (fun c => decide (c = ' '))).reverse
      = wordsOf ((t.reverse.dropWhile (fun c => decide (c = ' '))).reverse ++
          (t.reverse.takeWhile (fun c => decide (c = ' '))).reverse) :=
        (wordsOf_append_all_space _ _ hsp).symm
    _ = wordsOf t := by rw [← hdecomp]
    _ = wordsOf s := wordsOf_trimLeft s

theorem wordsOfLines_append (L1 L2 : List Str) :
    wordsOfLines (L1 ++ L2) = wordsOfLines L1 ++ wordsOfLines L2 := by
  induction L1 with
  | nil => rfl
  | cons l ls ih => simp [wordsOfLines, List.foldr] at *; simp [ih]

theorem wordsOf_joinSp (L : List Str) : wordsOf (joinSp L) = wordsOfLines L := by
  induction L with
  | nil => rfl
  | cons l ls ih =>
    cases ls with
    | nil => simp [joinSp, wordsOfLines]
    | cons l' ls' =>
      simp only [joinSp, wordsOf_append_space_mid, wordsOfLines, List.foldr] at *
      rw [ih]

theorem wordsOfLines_cons (w : Str) (ws : List Str) :
    wordsOfLines (w :: ws) = wordsOf w ++ wordsOfLines ws := rfl

theorem wordsOfLines_singleton (l : Str) : wordsOfLines [l] = wordsOf l := by
  simp [wordsOfLines]

theorem wordsOfLines_of_no_space {ws : List Str} (h : ∀ w ∈ ws, ' ' ∉ w) :
    wordsOfLines ws = ws.filter (fun w => decide (w ≠ [])) := by
  induction ws with
  | nil => rfl
  | cons w ws ih =>
    have hw := h w (List.mem_cons_self w ws)
    rw [wordsOfLines_cons, wordsOf_of_no_space hw,
      ih (fun x hx => h x (List.mem_cons_of_mem w hx))]
    by_cases hn : w = []
    · simp [hn, List.filter_cons]
    · simp [hn, List.filter_cons]

theorem wordsOf_line_append (l w : Str) (hl : l = [] ∨ ∃ l0, l = l0 ++ [' ']) :
    wordsOf (l ++ w ++ [' ']) = wordsOf l ++ wordsOf w := by
  rcases hl with rfl | ⟨l0, rfl⟩
  · simp [wordsOf_nil, wordsOf_append_space]
  · have h1 : (l0 ++ [' ']) ++ w ++ [' '] = l0 ++ ' ' :: (w ++ [' ']) := by simp
    rw [h1, wordsOf_append_space_mid, wordsOf_append_space, wordsOf_append_space]

/-! ### The greedy wrap invariants (claim C1) -/

theorem wrap_fold_measure (cw : Char → ℚ) (hcw : ∀ c, 0 ≤ cw c) (M : ℚ) :
    ∀ (ws : List Str) (L : List Str) (l : Str),
      (∀ w ∈ ws, ' ' ∉ w ∧ measure cw w ≤ M) →
      (∀ x ∈ L, measure cw x ≤ M) → measure cw (trim l) ≤ M →
      (∀ x ∈ (ws.foldl (wrapStep cw M) (L, l)).1, measure cw x ≤ M) ∧
        measure cw (trim (ws.foldl (wrapStep cw M) (L, l)).2) ≤ M := by
  intro ws
  induction ws with
  | nil =>
    intro L l _ hL hl
    exact ⟨hL, hl⟩
  | cons w ws ih =>
    intro L l hws hL hl
    have hw := hws w (List.mem_cons_self w ws)
    have hws' : ∀ x ∈ ws, ' ' ∉ x ∧ measure cw x ≤ M :=
      fun x hx => hws x (List.mem_cons_of_mem w hx)
    simp only [List.foldl_cons]
    by_cases hc : measure cw (l ++ w ++ [' ']) > M ∧ l ≠ []
    · rw [show wrapStep cw M (L, l) w = (L ++ [trim l], w ++ [' ']) by
        simp only [wrapStep, if_pos hc]]
      apply ih
      · exact hws'
      · intro x hx
        rcases List.mem_append.mp hx with hx | hx
        · exact hL x hx
        · have : x = trim l := by simpa using hx
          exact this ▸ hl
      · rw [trim_append_space hw.1]; exact hw.2
    · rw [show wrapStep cw M (L, l) w = (L, l ++ w ++ [' ']) by
        simp only [wrapStep, if_neg hc]]
      refine ih _ _ hws' hL ?_
      by_cases hle : l = []
      · subst hle
        have : ([] : Str) ++ w ++ [' '] = w ++ [' '] := by simp
        rw [this, trim_append_space hw.1]; exact hw.2
      · have hmle : measure cw (l ++ w ++ [' ']) ≤ M := by
          by_contra hgt
          exact hc ⟨lt_of_not_le hgt, hle⟩
        exact le_trans (measure_le_of_sublist cw hcw (trim_sublist _)) hmle

theorem wrap_fold_words (cw : Char → ℚ) (M : ℚ) :
    ∀ (ws : List Str) (L : List Str) (l : Str),
      (∀ w ∈ ws, ' ' ∉ w) → (l = [] ∨ ∃ l0, l = l0 ++ [' ']) →
      wordsOfLines ((ws.foldl (wrapStep cw M) (L, l)).1) ++
          wordsOf ((ws.foldl (wrapStep cw M) (L, l)).2)
        = wordsOfLines L ++ wordsOf l ++ wordsOfLines ws := by
  intro ws
  induction ws with
  | nil =>
    intro L l _ _
    simp [wordsOfLines, List.foldr]
  | cons w ws ih =>
    intro L l hws hl
    have hw : ' ' ∉ w := hws w (List.mem_cons_self w ws)
    have hws' : ∀ x ∈ ws, ' ' ∉ x := fun x hx => hws x (List.mem_cons_of_mem w hx)
    simp only [List.foldl_cons]
    by_cases hc : measure cw (l ++ w ++ [' ']) > M ∧ l ≠ []
    · rw [show wrapStep cw M (L, l) w = (L ++ [trim l], w ++ [' ']) by
        simp only [wrapStep, if_pos hc]]
      rw [ih (L ++ [trim l]) (w ++ [' ']) hws' (Or.inr ⟨w, rfl⟩)]
      rw [wordsOfLines_append, wordsOfLines_singleton, wordsOf_append_space,
        wordsOf_trim, wordsOfLines_cons]
      simp [List.append_assoc]
    · rw [show wrapStep cw M (L, l) w = (L, l ++ w ++ [' ']) by
        simp only [wrapStep, if_neg hc]]
      rw [ih L (l ++ w ++ [' ']) hws' (Or.inr ⟨l ++ w, by simp⟩)]
      rw [wordsOf_line_append l w hl, wordsOfLines_cons]
      simp [List.append_assoc]

/-- The `foldl` form of `wrapLines` agrees with the recursive view. -/
theorem wrapLines_fold_eq_wrapRec (cw : Char → ℚ) (M : ℚ) :
    ∀ (ws : List Str) (L : List Str) (l : Str),
      (if (trim (ws.foldl (wrapStep cw M) (L, l)).2).length > 0 then
        (ws.foldl (wrapStep cw M) (L, l)).1 ++ [trim (ws.foldl (wrapStep cw M) (L, l)).2]
      else (ws.foldl (wrapStep cw M) (L, l)).1)
        = L ++ wrapRec cw M ws l := by
  intro ws
  induction ws with
  | nil =>
    intro L l
    simp only [List.foldl_nil, wrapRec]
    by_cases h : (trim l).length > 0
    · rw [if_pos h, if_pos h]
    · rw [if_neg h, if_neg h, List.append_nil]
  | cons w ws ih =>
    intro L l
    simp only [List.foldl_cons]
    by_cases hc : measure cw (l ++ w ++ [' ']) > M ∧ l ≠ []
    · rw [show wrapStep cw M (L, l) w = (L ++ [trim l], w ++ [' ']) by
        simp only [wrapStep, if_pos hc]]
      rw [ih (L ++ [trim l]) (w ++ [' '])]
      rw [show wrapRec cw M (w :: ws) l = trim l :: wrapRec cw M ws (w ++ [' ']) by
        simp only [wrapRec, if_pos hc]]
      simp
    · rw [show wrapStep cw M (L, l) w = (L, l ++ w ++ [' ']) by
        simp only [wrapStep, if_neg hc]]
      rw [ih L (l ++ w ++ [' '])]
      rw [show wrapRec cw M (w :: ws) l = wrapRec cw M ws (l ++ w ++ [' ']) by
        simp only [wrapRec, if_neg hc]]

theorem wrapLines_eq_wrapRec (cw : Char → ℚ) (text : Str) (M : ℚ) :
    wrapLines cw text M = wrapRec cw M (splitOnSpace text) [] := by
  have := wrapLines_fold_eq_wrapRec cw M (splitOnSpace text) [] []
  simpa [wrapLines] using this

/-- C1: for every input string and every maxWidth at least the measured
width of the widest single word in it, every line returned by
`wrapLines` measures at most maxWidth under the active font, and joining
the words of all returned lines with single spaces reproduces the
original word sequence of the input exactly. -/
theorem wrap_correctness (cw : Char → ℚ) (hcw : ∀ c, 0 ≤ cw c) (text : Str)
    (maxWidth : ℚ) (hmax : ∀ w ∈ splitOnSpace text, measure cw w ≤ maxWidth) :
    (∀ lx ∈ wrapLines cw text maxWidth, measure cw lx ≤ maxWidth) ∧
    wordsOfLines (wrapLines cw text maxWidth) = wordsOf text ∧
    wordsOf (joinSp (wrapLines cw text maxWidth)) = wordsOf text := by
  have hws : ∀ w ∈ splitOnSpace text, ' ' ∉ w ∧ measure cw w ≤ maxWidth :=
    fun w hw => ⟨splitOnSpace_no_space text w hw, hmax w hw⟩
  have hM0 : (0 : ℚ) ≤ maxWidth := by
    rcases hne : splitOnSpace text with _ | ⟨w0, ws0⟩
    · exact absurd hne (splitOnSpace_ne_nil text)
    · have hm := hmax w0 (hne ▸ List.mem_cons_self w0 ws0)
      exact le_trans (measure_nonneg cw hcw w0) hm
  have hinv := wrap_fold_measure cw hcw maxWidth (splitOnSpace text) [] [] hws
    (by intro x hx; simp at hx) (by rw [trim_nil]; exact hM0)
  have hwords := wrap_fold_words cw maxWidth (splitOnSpace text) [] []
    (fun w hw => (hws w hw).1) (Or.inl rfl)
  have hridge : wordsOfLines ((splitOnSpace text).foldl (wrapStep cw maxWidth) ([], [])).1 ++
      wordsOf ((splitOnSpace text).foldl (wrapStep cw maxWidth) ([], [])).2 = wordsOf text := by
    rw [hwords, wordsOfLines_of_no_space (fun w hw => (hws w hw).1)]
    show wordsOfLines [] ++ wordsOf [] ++ wordsOf text = wordsOf text
    simp [wordsOfLines, wordsOf_nil]
  set r := (splitOnSpace text).foldl (wrapStep cw maxWidth) ([], []) with hrdef
  have hwl : wrapLines cw text maxWidth =
      if (trim r.2).length > 0 then r.1 ++ [trim r.2] else r.1 := rfl
  have hmain : wordsOfLines (wrapLines cw text maxWidth) = wordsOf text := by
    rw [hwl]
    by_cases hp : (trim r.2).length > 0
    · rw [if_pos hp, wordsOfLines_append, wordsOfLines_singleton, wordsOf_trim]
      exact hridge
    · rw [if_neg hp]
      have h2 : trim r.2 = [] := by
        by_contra hne2
        exact hp (List.length_pos.mpr hne2)
      have h3 : wordsOf r.2 = [] := by
        rw [← wordsOf_trim, h2, wordsOf_nil]
      rw [← hridge, h3, List.append_nil]
  refine ⟨?_, hmain, ?_⟩
  · intro lx hlx
    rw [hwl] at hlx
    by_cases hp : (trim r.2).length > 0
    · rw [if_pos hp] at hlx
      rcases List.mem_append.mp hlx with h | h
      · exact hinv.1 lx h
      · have : lx = trim r.2 := by simpa using h
        exact this ▸ hinv.2
    · rw [if_neg hp] at hlx
      exact hinv.1 lx hlx
  · rw [wordsOf_joinSp]
    exact hmain

theorem wrap_correctness_witness :
    (∀ lx ∈ wrapLines (fun _ => (1 : ℚ)) (("ab cd ef").toList) 5,
      measure (fun _ => (1 : ℚ)) lx ≤ 5) ∧
    wordsOfLines (wrapLines (fun _ => (1 : ℚ)) (("ab cd ef").toList) 5)
      = wordsOf (("ab cd ef").toList) ∧
    wordsOf (joinSp (wrapLines (fun _ => (1 : ℚ)) (("ab cd ef").toList) 5))
      = wordsOf (("ab cd ef").toList) :=
  wrap_correctness (fun _ => 1) (fun _ => zero_le_one) (("ab cd ef").toList) 5
    (by with_unfolding_all decide)

/-- C8: a string consisting of a single word (no spaces) whose measured
width exceeds maxWidth wraps to exactly one line equal to that word — a
word is never broken mid-word. -/
theorem single_word_unsplit (cw : Char → ℚ) (word : Str) (maxWidth : ℚ)
    (hsp : ' ' ∉ word) (hne : word ≠ [])
    (hwide : measure cw word > maxWidth) :
    wrapLines cw word maxWidth = [word] := by
  rw [wrapLines_eq_wrapRec, splitOnSpace_of_no_space hsp]
  have h1 : ¬ (measure cw (([] : Str) ++ word ++ [' ']) > maxWidth ∧ ([] : Str) ≠ []) := by
    rintro ⟨_, h⟩
    exact h rfl
  rw [show wrapRec cw maxWidth [word] [] =
      wrapRec cw maxWidth [] (([] : Str) ++ word ++ [' ']) by
    simp only [wrapRec, if_neg h1]]
  have h2 : ([] : Str) ++ word ++ [' '] = word ++ [' '] := by simp
  rw [h2]
  show (if (trim (word ++ [' '])).length > 0 then [trim (word ++ [' '])] else []) = [word]
  rw [trim_append_space hsp, if_pos (List.length_pos.mpr hne)]

/-! ### Antitonicity of the greedy wrap count (for claim C2)

Shrinking the font while keeping the column width (Template 2's shrink
step) makes every measured width smaller relative to the budget; the
following development shows the greedy wrap then produces no more lines.
The two runs are compared through the suffix relation on the current
accumulated line. -/

theorem suffix_append_right {ls lf : Str} (h : ls <:+ lf) (t : Str) :
    ls ++ t <:+ lf ++ t := by
  obtain ⟨u, rfl⟩ := h
  exact ⟨u, by simp⟩

theorem suffix_test_line {ls lf : Str} (h : ls <:+ lf) (w : Str) :
    ls ++ w ++ [' '] <:+ lf ++ w ++ [' '] := by
  have := suffix_append_right h (w ++ [' '])
  simpa [List.append_assoc] using this

theorem ne_nil_of_suffix_ne {ls lf : Str} (h : ls <:+ lf) (hne : ls ≠ []) :
    lf ≠ [] := by
  obtain ⟨u, rfl⟩ := h
  intro hc
  exact hne (List.append_eq_nil.mp hc).2

theorem trim_pos_of_suffix {ls lf : Str} (h : ls <:+ lf)
    (hpos : (trim ls).length > 0) : (trim lf).length > 0 := by
  have hne : trim ls ≠ [] := by
    intro hc; rw [hc] at hpos; simp at hpos
  have hex : ∃ c ∈ ls, c ≠ ' ' := by
    by_contra hall
    push_neg at hall
    exact hne (trim_eq_nil_iff.mpr hall)
  obtain ⟨c, hc, hcs⟩ := hex
  have hcf : c ∈ lf := h.subset hc
  have : trim lf ≠ [] := by
    intro hz
    exact hcs (trim_eq_nil_iff.mp hz c hcf)
  exact List.length_pos.mpr this

/-- Both directions of the suffix comparison: starting the greedy loop
from a line that is a suffix of another yields no more lines, and at
most one line fewer. -/
theorem wrapRec_len_suffix (cw : Char → ℚ) (hcw : ∀ c, 0 ≤ cw c) (M : ℚ) :
    ∀ (ws : List Str) (ls lf : Str), ls <:+ lf →
      (wrapRec cw M ws ls).length ≤ (wrapRec cw M ws lf).length ∧
      (wrapRec cw M ws lf).length ≤ (wrapRec cw M ws ls).length + 1 := by
  intro ws
  induction ws with
  | nil =>
    intro ls lf h
    constructor
    · by_cases hs : (trim ls).length > 0
      · rw [show wrapRec cw M [] ls = [trim ls] by simp only [wrapRec, if_pos hs],
          show wrapRec cw M [] lf = [trim lf] by
            simp only [wrapRec, if_pos (trim_pos_of_suffix h hs)]]
        simp
      · rw [show wrapRec cw M [] ls = [] by simp only [wrapRec, if_neg hs]]
        exact Nat.zero_le _
    · have hb : (wrapRec cw M [] lf).length ≤ 1 := by
        simp only [wrapRec]
        split <;> simp
      omega
  | cons w ws ih =>
    intro ls lf h
    by_cases cf : measure cw (lf ++ w ++ [' ']) > M ∧ lf ≠ []
    · by_cases cs : measure cw (ls ++ w ++ [' ']) > M ∧ ls ≠ []
      · rw [show wrapRec cw M (w :: ws) ls = trim ls :: wrapRec cw M ws (w ++ [' ']) by
            simp only [wrapRec, if_pos cs],
          show wrapRec cw M (w :: ws) lf = trim lf :: wrapRec cw M ws (w ++ [' ']) by
            simp only [wrapRec, if_pos cf]]
        simp only [List.length_cons]
        omega
      · rw [show wrapRec cw M (w :: ws) ls = wrapRec cw M ws (ls ++ w ++ [' ']) by
            simp only [wrapRec, if_neg cs],
          show wrapRec cw M (w :: ws) lf = trim lf :: wrapRec cw M ws (w ++ [' ']) by
            simp only [wrapRec, if_pos cf]]
        have hsfx : (w ++ [' ']) <:+ ls ++ w ++ [' '] := ⟨ls, by simp⟩
        have hAB := ih (w ++ [' ']) (ls ++ w ++ [' ']) hsfx
        simp only [List.length_cons]
        omega
    · have cs : ¬ (measure cw (ls ++ w ++ [' ']) > M ∧ ls ≠ []) := by
        rintro ⟨hgt, hne⟩
        exact cf ⟨lt_of_lt_of_le hgt (measure_le_of_suffix cw hcw (suffix_test_line h w)),
          ne_nil_of_suffix_ne h hne⟩
      rw [show wrapRec cw M (w :: ws) ls = wrapRec cw M ws (ls ++ w ++ [' ']) by
          simp only [wrapRec, if_neg cs],
        show wrapRec cw M (w :: ws) lf = wrapRec cw M ws (lf ++ w ++ [' ']) by
          simp only [wrapRec, if_neg cf]]
      exact ih _ _ (suffix_test_line h w)

theorem wrapRec_nil_start (cw : Char → ℚ) (M : ℚ) (w : Str) (ws : List Str) :
    wrapRec cw M (w :: ws) [] = wrapRec cw M ws (w ++ [' ']) := by
  have h1 : ¬ (measure cw (w ++ [' ']) > M ∧ ([] : Str) ≠ []) := fun hc => hc.2 rfl
  simp only [wrapRec, List.nil_append, if_neg h1]

/-- Greedy wrapping of a suffix of the word list produces no more lines. -/
theorem wrapRec_len_drop (cw : Char → ℚ) (hcw : ∀ c, 0 ≤ cw c) (M : ℚ) :
    ∀ (u r : List Str),
      (wrapRec cw M r []).length ≤ (wrapRec cw M (u ++ r) []).length := by
  intro u
  induction u with
  | nil => intro r; simp
  | cons x u ih =>
    intro r
    calc (wrapRec cw M r []).length
        ≤ (wrapRec cw M (u ++ r) []).length := ih r
      _ ≤ (wrapRec cw M (u ++ r) (x ++ [' '])).length :=
          (wrapRec_len_suffix cw hcw M (u ++ r) [] (x ++ [' ']) (List.nil_suffix)).1
      _ = (wrapRec cw M (x :: (u ++ r)) []).length := by rw [wrapRec_nil_start]

theorem chomp_rest_suffix (cw : Char → ℚ) (M : ℚ) :
    ∀ (ws : List Str) (l : Str), (chomp cw M ws l).2 <:+ ws := by
  intro ws
  induction ws with
  | nil => intro l; exact List.nil_suffix
  | cons w ws ih =>
    intro l
    by_cases hc : measure cw (l ++ w ++ [' ']) > M ∧ l ≠ []
    · rw [show chomp cw M (w :: ws) l = (l, w :: ws) by simp only [chomp, if_pos hc]]
    · rw [show chomp cw M (w :: ws) l = chomp cw M ws (l ++ w ++ [' ']) by
        simp only [chomp, if_neg hc]]
      exact (ih _).trans (List.suffix_cons w ws)

theorem chomp_rest_length (cw : Char → ℚ) (M : ℚ) (w : Str) (ws : List Str) :
    ((chomp cw M (w :: ws) []).2).length < (w :: ws).length := by
  have h1 : ¬ (measure cw (([] : Str) ++ w ++ [' ']) > M ∧ ([] : Str) ≠ []) := by
    rintro ⟨_, h⟩; exact h rfl
  rw [show chomp cw M (w :: ws) [] = chomp cw M ws (([] : Str) ++ w ++ [' ']) by
    simp only [chomp, if_neg h1]]
  have := (chomp_rest_suffix cw M ws (([] : Str) ++ w ++ [' '])).length_le
  simp only [List.length_cons]
  omega

theorem wrapRec_len_eq_chomp (cw : Char → ℚ) (M : ℚ) :
    ∀ (ws : List Str) (l : Str),
      (wrapRec cw M ws l).length =
        if (chomp cw M ws l).2 = [] then
          (if (trim (chomp cw M ws l).1).length > 0 then 1 else 0)
        else 1 + (wrapRec cw M ((chomp cw M ws l).2) []).length := by
  intro ws
  induction ws with
  | nil =>
    intro l
    rw [show chomp cw M [] l = (l, []) from rfl, if_pos rfl]
    simp only [wrapRec]
    split <;> simp
  | cons w ws ih =>
    intro l
    by_cases hc : measure cw (l ++ w ++ [' ']) > M ∧ l ≠ []
    · rw [show chomp cw M (w :: ws) l = (l, w :: ws) by simp only [chomp, if_pos hc]]
      rw [show wrapRec cw M (w :: ws) l = trim l :: wrapRec cw M ws (w ++ [' ']) by
        simp only [wrapRec, if_pos hc]]
      rw [if_neg (by simp)]
      rw [wrapRec_nil_start]
      simp [Nat.add_comm]
    · rw [show chomp cw M (w :: ws) l = chomp cw M ws (l ++ w ++ [' ']) by
        simp only [chomp, if_neg hc]]
      rw [show wrapRec cw M (w :: ws) l = wrapRec cw M ws (l ++ w ++ [' ']) by
        simp only [wrapRec, if_neg hc]]
      exact ih _

theorem chomp_rest_dom (cw cw' : Char → ℚ) (M M' : ℚ)
    (hdom : ∀ s : Str, measure cw s ≤ M → measure cw' s ≤ M') :
    ∀ (ws : List Str) (l : Str), (chomp cw' M' ws l).2 <:+ (chomp cw M ws l).2 := by
  intro ws
  induction ws with
  | nil => intro l; exact List.nil_suffix
  | cons w ws ih =>
    intro l
    by_cases hcM : measure cw (l ++ w ++ [' ']) > M ∧ l ≠ []
    · rw [show chomp cw M (w :: ws) l = (l, w :: ws) by simp only [chomp, if_pos hcM]]
      by_cases hcM' : measure cw' (l ++ w ++ [' ']) > M' ∧ l ≠ []
      · rw [show chomp cw' M' (w :: ws) l = (l, w :: ws) by simp only [chomp, if_pos hcM']]
      · rw [show chomp cw' M' (w :: ws) l = chomp cw' M' ws (l ++ w ++ [' ']) by
          simp only [chomp, if_neg hcM']]
        exact (chomp_rest_suffix cw' M' ws _).trans (List.suffix_cons w ws)
    · have hcM' : ¬ (measure cw' (l ++ w ++ [' ']) > M' ∧ l ≠ []) := by
        rintro ⟨hgt, hne⟩
        rcases not_and_or.mp hcM with hM | hl
        · exact absurd (hdom _ (le_of_not_lt hM)) (not_le_of_lt hgt)
        · exact hl hne
      rw [show chomp cw M (w :: ws) l = chomp cw M ws (l ++ w ++ [' ']) by
          simp only [chomp, if_neg hcM],
        show chomp cw' M' (w :: ws) l = chomp cw' M' ws (l ++ w ++ [' ']) by
          simp only [chomp, if_neg hcM']]
      exact ih _

theorem chomp_dom_nil (cw cw' : Char → ℚ) (M M' : ℚ)
    (hdom : ∀ s : Str, measure cw s ≤ M → measure cw' s ≤ M') :
    ∀ (ws : List Str) (l : Str), (chomp cw M ws l).2 = [] →
      chomp cw' M' ws l = ((chomp cw M ws l).1, []) := by
  intro ws
  induction ws with
  | nil => intro l _; rfl
  | cons w ws ih =>
    intro l hnil
    by_cases hcM : measure cw (l ++ w ++ [' ']) > M ∧ l ≠ []
    · rw [show chomp cw M (w :: ws) l = (l, w :: ws) by simp only [chomp, if_pos hcM]] at hnil
      simp at hnil
    · have hcM' : ¬ (measure cw' (l ++ w ++ [' ']) > M' ∧ l ≠ []) := by
        rintro ⟨hgt, hne⟩
        rcases not_and_or.mp hcM with hM | hl
        · exact absurd (hdom _ (le_of_not_lt hM)) (not_le_of_lt hgt)
        · exact hl hne
      rw [show chomp cw M (w :: ws) l = chomp cw M ws (l ++ w ++ [' ']) by
          simp only [chomp, if_neg hcM]] at hnil ⊢
      rw [show chomp cw' M' (w :: ws) l = chomp cw' M' ws (l ++ w ++ [' ']) by
        simp only [chomp, if_neg hcM']]
      exact ih _ hnil

/-- Core antitonicity: if every string fitting budget `M` under font `cw`
also fits budget `M'` under font `cw'`, then the greedy wrap at
`(cw', M')` produces no more lines than at `(cw, M)`. -/
theorem wrapRec_len_dom (cw cw' : Char → ℚ) (hcw' : ∀ c, 0 ≤ cw' c) (M M' : ℚ)
    (hdom : ∀ s : Str, measure cw s ≤ M → measure cw' s ≤ M') :
    ∀ ws : List Str, (wrapRec cw' M' ws []).length ≤ (wrapRec cw M ws []).length := by
  have key : ∀ (n : ℕ) (ws : List Str), ws.length ≤ n →
      (wrapRec cw' M' ws []).length ≤ (wrapRec cw M ws []).length := by
    intro n
    induction n with
    | zero =>
      intro ws hlen
      have : ws = [] := List.eq_nil_of_length_eq_zero (Nat.le_zero.mp hlen)
      subst this
      exact le_refl _
    | succ n ihn =>
      intro ws hlen
      cases ws with
      | nil => exact le_refl _
      | cons w ws0 =>
        rcases hrnil : (chomp cw M (w :: ws0) []).2 with _ | ⟨x, r0⟩
        · have hM' := chomp_dom_nil cw cw' M M' hdom (w :: ws0) [] hrnil
          rw [wrapRec_len_eq_chomp cw' M', wrapRec_len_eq_chomp cw M, hM', hrnil]
          simp
        · rw [wrapRec_len_eq_chomp cw M (w :: ws0) [], hrnil,
            if_neg (by simp)]
          rcases hrnil' : (chomp cw' M' (w :: ws0) []).2 with _ | ⟨y, r0'⟩
          · rw [wrapRec_len_eq_chomp cw' M' (w :: ws0) [], hrnil', if_pos rfl]
            split <;> omega
          · rw [wrapRec_len_eq_chomp cw' M' (w :: ws0) [], hrnil', if_neg (by simp)]
            have hsfx : (y :: r0') <:+ (x :: r0) := by
              rw [← hrnil, ← hrnil']
              exact chomp_rest_dom cw cw' M M' hdom (w :: ws0) []
            obtain ⟨ud, hud⟩ := hsfx
            have h1 : (wrapRec cw' M' (y :: r0') []).length ≤
                (wrapRec cw' M' (x :: r0) []).length := by
              rw [← hud]
              exact wrapRec_len_drop cw' hcw' M' ud (y :: r0')
            have hlen2 : (x :: r0).length ≤ n := by
              have hcl := chomp_rest_length cw M w ws0
              rw [hrnil] at hcl
              simp only [List.length_cons] at hcl hlen ⊢
              omega
            have h2 := ihn (x :: r0) hlen2
            omega
  intro ws
  exact key ws.length ws (le_refl _)

/-- Antitonicity for `wrapLines` itself. -/
theorem wrapLines_len_dom (cw cw' : Char → ℚ) (hcw' : ∀ c, 0 ≤ cw' c) (M M' : ℚ)
    (hdom : ∀ s : Str, measure cw s ≤ M → measure cw' s ≤ M') (text : Str) :
    (wrapLines cw' text M').length ≤ (wrapLines cw text M).length := by
  rw [wrapLines_eq_wrapRec, wrapLines_eq_wrapRec]
  exact wrapRec_len_dom cw cw' hcw' M M' hdom (splitOnSpace text)

theorem measure_mul (a : ℚ) (u : Char → ℚ) (s : Str) :
    measure (fun c => a * u c) s = a * measure u s := by
  unfold measure
  exact List.sum_map_mul_left s u a

/-- Template 2 shrink step: the total wrapped line count does not grow
(the font shrinks while the column width is unchanged). -/
theorem totalLines2_shrink_le (u : Char → ℚ) (hu : ∀ c, 0 ≤ u c)
    (tracks : List Str) (st : Typo2) (hf : 0 ≤ st.trackFontSize) :
    totalLines2 u tracks (shrink2 st).trackFontSize (shrink2 st).columnWidth
      ≤ totalLines2 u tracks st.trackFontSize st.columnWidth := by
  unfold totalLines2
  apply List.sum_le_sum
  intro p _
  apply wrapLines_len_dom
  · intro c
    have h1 : (0 : ℚ) ≤ 0.95 := by norm_num
    have := hu c
    show 0 ≤ st.trackFontSize * 0.95 * u c
    positivity
  · intro s hs
    show measure (fun c => st.trackFontSize * 0.95 * u c) s ≤ st.columnWidth
    have hrw : (fun c => st.trackFontSize * 0.95 * u c)
        = fun c => 0.95 * (st.trackFontSize * u c) := by
      funext c; ring
    rw [hrw, measure_mul]
    have hnn : 0 ≤ measure (fun c => st.trackFontSize * u c) s := by
      apply measure_nonneg
      intro c
      exact mul_nonneg hf (hu c)
    nlinarith [hs]

/-- Template 2 shrink step: the line capacity does not drop (the line
height shrinks, so more rows fit in the fixed available height). -/
theorem maxLines2_shrink_ge (availH : ℚ)
    (hav : 0 ≤ availH) (st : Typo2) (hlh : 0 < st.lineHeight) :
    maxLines2 availH st ≤ maxLines2 availH (shrink2 st) := by
  unfold maxLines2 linesPerColumn2 shrink2
  dsimp only
  have hpos : (0 : ℚ) < st.lineHeight * 0.97 := by positivity
  have hle : st.lineHeight * 0.97 ≤ st.lineHeight := by nlinarith
  have hdiv : availH / st.lineHeight ≤ availH / (st.lineHeight * 0.97) := by
    gcongr
  have := Int.floor_mono hdiv
  omega

/-- C2 (amended): across successive iterations of the tracklist auto-fit
shrink loop the font size is non-increasing in both templates, and in
Template 2 the footprint is non-increasing (total wrapped line count
does not grow while the capacity does not drop).  In Template 1 the
required footprint may grow between successive iterations — see the
counterexample. -/
theorem autofit_monotone_amended
    (u : Char → ℚ) (hu : ∀ c, 0 ≤ u c) (tracks : List Str)
    (st1 : Typo1) (h1 : 0 ≤ st1.trackFontSize)
    (st2 : Typo2) (h2 : 0 ≤ st2.trackFontSize)
    (availH : ℚ) (hav : 0 ≤ availH) (hlh : 0 < st2.lineHeight) :
    (shrink1 st1).trackFontSize ≤ st1.trackFontSize ∧
    (shrink2 st2).trackFontSize ≤ st2.trackFontSize ∧
    totalLines2 u tracks (shrink2 st2).trackFontSize (shrink2 st2).columnWidth
      ≤ totalLines2 u tracks st2.trackFontSize st2.columnWidth ∧
    maxLines2 availH st2 ≤ maxLines2 availH (shrink2 st2) := by
  refine ⟨?_, ?_, totalLines2_shrink_le u hu tracks st2 h2,
    maxLines2_shrink_ge availH hav st2 hlh⟩
  · show st1.trackFontSize * 0.95 ≤ st1.trackFontSize
    nlinarith
  · show st2.trackFontSize * 0.95 ≤ st2.trackFontSize
    nlinarith

theorem autofit_monotone_amended_witness :
    (shrink1 (initTypo1 1)).trackFontSize ≤ (initTypo1 1).trackFontSize ∧
    (shrink2 (initTypo2 1)).trackFontSize ≤ (initTypo2 1).trackFontSize ∧
    totalLines2 (fun _ => 1) [("A").toList] (shrink2 (initTypo2 1)).trackFontSize
        (shrink2 (initTypo2 1)).columnWidth
      ≤ totalLines2 (fun _ => 1) [("A").toList] (initTypo2 1).trackFontSize
        (initTypo2 1).columnWidth ∧
    maxLines2 100 (initTypo2 1) ≤ maxLines2 100 (shrink2 (initTypo2 1)) :=
  autofit_monotone_amended (fun _ => 1) (fun _ => zero_le_one) [("A").toList]
    (initTypo1 1) (by show (0 : ℚ) ≤ 40 * 1; norm_num)
    (initTypo2 1) (by show (0 : ℚ) ≤ 50 * 1; norm_num)
    100 (by norm_num) (by show (0 : ℚ) < 60 * 1; norm_num)

/-- C2 counterexample: a concrete Template 1 run at reference scale
(canvas width 2480) on sixteen copies of the track "A B".  The first
check fails (content does not fit, so the loop iterates), yet the
required footprint at the next iteration is strictly larger than at the
first: 3964.8 vs 2682 — the claimed footprint monotonicity is false for
Template 1. -/
theorem foldl_add_replicate (g : Str → ℕ) (t : Str) :
    ∀ (n : ℕ) (a : ℕ),
      (List.replicate n t).foldl (fun acc x => acc + g x) a = a + n * g t := by
  intro n
  induction n with
  | zero => intro a; simp
  | succ n ih =>
    intro a
    rw [List.replicate_succ, List.foldl_cons, ih]
    ring

theorem totalLines1_replicate (u : Char → ℚ) (t : Str) (n : ℕ) (f w : ℚ) :
    totalLines1 u (List.replicate n t) f w
      = n * (wrapLines (fun c => f * u c) (t.map Char.toUpper) w).length := by
  unfold totalLines1
  rw [foldl_add_replicate (fun track =>
    (wrapLines (fun c => f * u c) (track.map Char.toUpper) w).length) t n 0]
  simp

set_option maxRecDepth 2000 in
theorem autofit_monotone_cex :
    ¬ exit1 (fun c => if c = ' ' then 1/2 else 7)
        (List.replicate 16 (("A B").toList)) 2480 1 (initTypo1 1) ∧
    fitLoop1 (fun c => if c = ' ' then 1/2 else 7)
        (List.replicate 16 (("A B").toList)) 2480 1 1 (initTypo1 1)
      = shrink1 (initTypo1 1) ∧
    totalWidth1 (fun c => if c = ' ' then 1/2 else 7)
        (List.replicate 16 (("A B").toList)) 1 (initTypo1 1)
      < totalWidth1 (fun c => if c = ' ' then 1/2 else 7)
        (List.replicate 16 (("A B").toList)) 1 (shrink1 (initTypo1 1)) := by
  have e1 : (wrapLines
      (fun c => (initTypo1 1).trackFontSize * (if c = ' ' then (1 : ℚ)/2 else 7))
      ((("A B").toList).map Char.toUpper) (initTypo1 1).columnWidth).length = 1 := by
    with_unfolding_all decide
  have e2 : (wrapLines
      (fun c => (shrink1 (initTypo1 1)).trackFontSize * (if c = ' ' then (1 : ℚ)/2 else 7))
      ((("A B").toList).map Char.toUpper) (shrink1 (initTypo1 1)).columnWidth).length = 2 := by
    with_unfolding_all decide
  have hL0 : totalLines1 (fun c => if c = ' ' then 1/2 else 7)
      (List.replicate 16 (("A B").toList)) (initTypo1 1).trackFontSize
      (initTypo1 1).columnWidth = 16 := by
    rw [totalLines1_replicate, e1]
  have hL1 : totalLines1 (fun c => if c = ' ' then 1/2 else 7)
      (List.replicate 16 (("A B").toList)) (shrink1 (initTypo1 1)).trackFontSize
      (shrink1 (initTypo1 1)).columnWidth = 32 := by
    rw [totalLines1_replicate, e2]
  have hW0 : totalWidth1 (fun c => if c = ' ' then 1/2 else 7)
      (List.replicate 16 (("A B").toList)) 1 (initTypo1 1) = 2682 := by
    unfold totalWidth1
    rw [hL0, show cols1 16 = 4 from by with_unfolding_all decide]
    show (4 : ℚ) * (660 * 1) + ((4 : ℚ) - 1) * (14 * 1) = 2682
    norm_num
  have hW1 : totalWidth1 (fun c => if c = ' ' then 1/2 else 7)
      (List.replicate 16 (("A B").toList)) 1 (shrink1 (initTypo1 1)) = 19824/5 := by
    unfold totalWidth1
    rw [hL1, show cols1 32 = 7 from by with_unfolding_all decide]
    show (7 : ℚ) * (660 * 1 * 0.84) + ((7 : ℚ) - 1) * (14 * 1) = 19824/5
    norm_num
  have hexit : ¬ exit1 (fun c => if c = ' ' then 1/2 else 7)
      (List.replicate 16 (("A B").toList)) 2480 1 (initTypo1 1) := by
    unfold exit1
    push_neg
    constructor
    · rw [hW0]; norm_num
    · show (8 : ℚ) ≤ 40 * 1; norm_num
  refine ⟨hexit, ?_, ?_⟩
  · show (if exit1 (fun c => if c = ' ' then 1/2 else 7)
        (List.replicate 16 (("A B").toList)) 2480 1 (initTypo1 1) then initTypo1 1
      else fitLoop1 (fun c => if c = ' ' then 1/2 else 7)
        (List.replicate 16 (("A B").toList)) 2480 1 0 (shrink1 (initTypo1 1)))
      = shrink1 (initTypo1 1)
    rw [if_neg hexit]
    rfl
  · rw [hW0, hW1]
    norm_num

/-! ### Termination of the auto-fit loops (claim C3) -/

theorem iterate_shrink1_font (st : Typo1) (n : ℕ) :
    (shrink1^[n] st).trackFontSize = st.trackFontSize * 0.95 ^ n := by
  induction n with
  | zero => simp
  | succ n ih =>
    rw [Function.iterate_succ_apply']
    show (shrink1^[n] st).trackFontSize * 0.95 = _
    rw [ih, pow_succ]
    ring

theorem iterate_shrink2_font (st : Typo2) (n : ℕ) :
    (shrink2^[n] st).trackFontSize = st.trackFontSize * 0.95 ^ n := by
  induction n with
  | zero => simp
  | succ n ih =>
    rw [Function.iterate_succ_apply']
    show (shrink2^[n] st).trackFontSize * 0.95 = _
    rw [ih, pow_succ]
    ring

theorem exists_font_below (f0 floor : ℚ) (hfloor : 0 < floor) :
    ∃ n : ℕ, f0 * 0.95 ^ n < floor := by
  by_cases hf : f0 ≤ 0
  · refine ⟨0, ?_⟩
    simpa using lt_of_le_of_lt hf hfloor
  · push_neg at hf
    obtain ⟨n, hn⟩ := exists_pow_lt_of_lt_one
      (show (0 : ℚ) < floor / f0 by positivity) (show (0.95 : ℚ) < 1 by norm_num)
    refine ⟨n, ?_⟩
    calc f0 * 0.95 ^ n < f0 * (floor / f0) := by
          exact mul_lt_mul_of_pos_left hn hf
      _ = floor := by field_simp

theorem pow_ninetyfive_below : (0.95 : ℚ) ^ 77 < 1 / 50 := by
  norm_num

/-- C3: for every album record and canvas, the tracklist auto-fit shrink
loop of each template terminates — after finitely many shrink steps the
exit condition holds, guarded by the hard minimum font-size floor (8 for
Template 1, 10 for Template 2); moreover for every scale up to 10 (canvas
widths up to 24800 px, far beyond A0 at 300 dpi) at most 200 iterations
are needed. -/
theorem autofit_terminates :
    (∀ (u : Char → ℚ) (tracks : List Str) (canvasWidth scale : ℚ),
      ∃ n : ℕ, exit1 u tracks canvasWidth scale (shrink1^[n] (initTypo1 scale))) ∧
    (∀ (u : Char → ℚ) (tracks : List Str) (availH scale : ℚ),
      ∃ n : ℕ, exit2 u tracks availH (shrink2^[n] (initTypo2 scale))) ∧
    (∀ (u : Char → ℚ) (tracks : List Str) (canvasWidth scale : ℚ), scale ≤ 10 →
      ∃ n ≤ 200, exit1 u tracks canvasWidth scale (shrink1^[n] (initTypo1 scale))) ∧
    (∀ (u : Char → ℚ) (tracks : List Str) (availH scale : ℚ), scale ≤ 10 →
      ∃ n ≤ 200, exit2 u tracks availH (shrink2^[n] (initTypo2 scale))) := by
  have hp77 : (0 : ℚ) < 0.95 ^ 77 := by positivity
  refine ⟨?_, ?_, ?_, ?_⟩
  · intro u tracks canvasWidth scale
    obtain ⟨n, hn⟩ := exists_font_below ((initTypo1 scale).trackFontSize) 8 (by norm_num)
    exact ⟨n, Or.inr (by rw [iterate_shrink1_font]; exact hn)⟩
  · intro u tracks availH scale
    obtain ⟨n, hn⟩ := exists_font_below ((initTypo2 scale).trackFontSize) 10 (by norm_num)
    exact ⟨n, Or.inr (by rw [iterate_shrink2_font]; exact hn)⟩
  · intro u tracks canvasWidth scale hs
    refine ⟨77, by norm_num, Or.inr ?_⟩
    rw [iterate_shrink1_font]
    show 40 * scale * 0.95 ^ 77 < 8
    nlinarith [pow_ninetyfive_below, hp77]
  · intro u tracks availH scale hs
    refine ⟨77, by norm_num, Or.inr ?_⟩
    rw [iterate_shrink2_font]
    show 50 * scale * 0.95 ^ 77 < 10
    nlinarith [pow_ninetyfive_below, hp77]

theorem autofit_terminates_witness :
    (∃ n ≤ 200, exit1 (fun _ => (1 : ℚ)) [] 2480 1 (shrink1^[n] (initTypo1 1))) ∧
    (∃ n ≤ 200, exit2 (fun _ => (1 : ℚ)) [] 1000 (shrink2^[n] (initTypo2 1))) :=
  ⟨autofit_terminates.2.2.1 (fun _ => 1) [] 2480 1 (by norm_num),
   autofit_terminates.2.2.2 (fun _ => 1) [] 1000 1 (by norm_num)⟩

/-! ### Shrink-step factors (claim C4) and first-check exit (claim C7) -/

/-- C4 (amended): in every iteration of the tracklist auto-fit loop
where the content does not yet fit, the font size is shrunk by the fixed
factor 0.95 and the line height is adjusted (grown ×1.04 in Template 1,
shrunk ×0.97 in Template 2) before re-wrapping and re-checking; the
column width is shrunk ×0.84 in Template 1 but left unchanged in
Template 2. -/
theorem shrink_step_factors
    (u : Char → ℚ) (tracks : List Str) (canvasWidth scale availH : ℚ)
    (st1 : Typo1) (st2 : Typo2) (fuel : ℕ)
    (h1 : ¬ exit1 u tracks canvasWidth scale st1)
    (h2 : ¬ exit2 u tracks availH st2) :
    fitLoop1 u tracks canvasWidth scale (fuel + 1) st1
      = fitLoop1 u tracks canvasWidth scale fuel (shrink1 st1) ∧
    fitLoop2 u tracks availH (fuel + 1) st2
      = fitLoop2 u tracks availH fuel (shrink2 st2) ∧
    (shrink1 st1).trackFontSize = st1.trackFontSize * 0.95 ∧
    (shrink1 st1).lineHeight = st1.lineHeight * 1.04 ∧
    (shrink1 st1).columnWidth = st1.columnWidth * 0.84 ∧
    (shrink2 st2).trackFontSize = st2.trackFontSize * 0.95 ∧
    (shrink2 st2).lineHeight = st2.lineHeight * 0.97 ∧
    (shrink2 st2).columnWidth = st2.columnWidth := by
  refine ⟨?_, ?_, rfl, rfl, rfl, rfl, rfl, rfl⟩
  · show (if exit1 u tracks canvasWidth scale st1 then st1
      else fitLoop1 u tracks canvasWidth scale fuel (shrink1 st1))
      = fitLoop1 u tracks canvasWidth scale fuel (shrink1 st1)
    rw [if_neg h1]
  · show (if exit2 u tracks availH st2 then st2
      else fitLoop2 u tracks availH fuel (shrink2 st2))
      = fitLoop2 u tracks availH fuel (shrink2 st2)
    rw [if_neg h2]

theorem shrink_step_factors_witness :
    fitLoop1 (fun _ => (1 : ℚ)) [("A").toList, ("B").toList, ("C").toList] 600 1 1 (initTypo1 1)
      = fitLoop1 (fun _ => (1 : ℚ)) [("A").toList, ("B").toList, ("C").toList] 600 1 0
          (shrink1 (initTypo1 1)) ∧
    fitLoop2 (fun _ => (1 : ℚ)) [("A").toList, ("B").toList, ("C").toList] 100 1 (initTypo2 1)
      = fitLoop2 (fun _ => (1 : ℚ)) [("A").toList, ("B").toList, ("C").toList] 100 0
          (shrink2 (initTypo2 1)) ∧
    (shrink1 (initTypo1 1)).trackFontSize = (initTypo1 1).trackFontSize * 0.95 ∧
    (shrink1 (initTypo1 1)).lineHeight = (initTypo1 1).lineHeight * 1.04 ∧
    (shrink1 (initTypo1 1)).columnWidth = (initTypo1 1).columnWidth * 0.84 ∧
    (shrink2 (initTypo2 1)).trackFontSize = (initTypo2 1).trackFontSize * 0.95 ∧
    (shrink2 (initTypo2 1)).lineHeight = (initTypo2 1).lineHeight * 0.97 ∧
    (shrink2 (initTypo2 1)).columnWidth = (initTypo2 1).columnWidth :=
  shrink_step_factors (fun _ => 1) [("A").toList, ("B").toList, ("C").toList]
    600 1 100 (initTypo1 1) (initTypo2 1) 0
    (by with_unfolding_all decide) (by with_unfolding_all decide)

/-- C4 counterexample: a Template 2 iteration whose content does not fit
(three one-line tracks against capacity two, font well above the floor)
leaves the column width exactly unchanged at its positive value — it is
not shrunk by any factor below one. -/
theorem shrink_step_factors_cex :
    ¬ exit2 (fun _ => (1 : ℚ)) [("A").toList, ("B").toList, ("C").toList] 100 (initTypo2 1) ∧
    (shrink2 (initTypo2 1)).columnWidth = (initTypo2 1).columnWidth ∧
    (0 : ℚ) < (initTypo2 1).columnWidth := by
  refine ⟨by with_unfolding_all decide, rfl, ?_⟩
  show (0 : ℚ) < 680 * 1
  norm_num

/-- C7: a tracklist whose measured footprint at the starting typography
exactly equals the available capacity (total wrapped line count equal to
`maxLines` in Template 2; required total width equal to the available
width in Template 1) makes the auto-fit loop exit on its first check,
leaving the font size, line height and column width at their initial
values. -/
theorem exact_fit_first_check :
    (∀ (u : Char → ℚ) (tracks : List Str) (canvasWidth scale : ℚ) (st : Typo1) (fuel : ℕ),
      totalWidth1 u tracks scale st = canvasWidth - 2 * (110 * scale) →
      fitLoop1 u tracks canvasWidth scale fuel st = st) ∧
    (∀ (u : Char → ℚ) (tracks : List Str) (availH : ℚ) (st : Typo2) (fuel : ℕ),
      (totalLines2 u tracks st.trackFontSize st.columnWidth : ℤ) = maxLines2 availH st →
      fitLoop2 u tracks availH fuel st = st) := by
  constructor
  · intro u tracks canvasWidth scale st fuel h
    have hex : exit1 u tracks canvasWidth scale st := Or.inl (le_of_eq h)
    cases fuel with
    | zero => rfl
    | succ n =>
      show (if exit1 u tracks canvasWidth scale st then st
        else fitLoop1 u tracks canvasWidth scale n (shrink1 st)) = st
      rw [if_pos hex]
  · intro u tracks availH st fuel h
    have hex : exit2 u tracks availH st := Or.inl (le_of_eq h)
    cases fuel with
    | zero => rfl
    | succ n =>
      show (if exit2 u tracks availH st then st
        else fitLoop2 u tracks availH n (shrink2 st)) = st
      rw [if_pos hex]

set_option maxRecDepth 2000 in
theorem exact_fit_first_check_witness :
    fitLoop1 (fun _ => (1 : ℚ)) [("A").toList] 880 1 1 (initTypo1 1) = initTypo1 1 ∧
    fitLoop2 (fun _ => (1 : ℚ)) [("A").toList, ("B").toList] 60 1 (initTypo2 1)
      = initTypo2 1 :=
  ⟨exact_fit_first_check.1 (fun _ => 1) [("A").toList] 880 1 (initTypo1 1) 1
      (by with_unfolding_all decide),
   exact_fit_first_check.2 (fun _ => 1) [("A").toList, ("B").toList] 60 (initTypo2 1) 1
      (by with_unfolding_all decide)⟩

theorem single_word_unsplit_witness :
    ' ' ∉ (("abcdef").toList) ∧ (("abcdef").toList : Str) ≠ [] ∧
    measure (fun _ => (1 : ℚ)) (("abcdef").toList) > 2 ∧
    wrapLines (fun _ => (1 : ℚ)) (("abcdef").toList) 2 = [("abcdef").toList] :=
  ⟨by decide, by decide, by with_unfolding_all decide,
    single_word_unsplit (fun _ => 1) (("abcdef").toList) 2 (by decide) (by decide)
      (by with_unfolding_all decide)⟩

/-! ### Optional-field fallbacks (claim C5) -/

/-- C5 (amended): a missing (or empty) artist or year degrades to the
fixed placeholders `"UNKNOWN ARTIST"` / `"----"` in the first Template 1
variant and in Template 2, without an error; a missing metadata field in
Template 2 causes its whole info block to be skipped — no placeholder is
drawn and no error is raised; the second Template 1 variant, lacking the
optional chaining, instead throws a TypeError on a missing artist. -/
theorem optional_fields_amended :
    artistLabel1 none = UNKNOWN_ARTIST ∧
    artistLabel1 (some []) = UNKNOWN_ARTIST ∧
    yearLabel none = YEAR_PLACEHOLDER ∧
    yearLabel (some []) = YEAR_PLACEHOLDER ∧
    artistLabel2 none = UNKNOWN_ARTIST ∧
    drawInfoBlock (("Release Date").toList) none = [] ∧
    drawInfoBlock (("Album Length").toList) none = [] ∧
    drawInfoBlock (("Record Label").toList) none = [] ∧
    artistLabel1v2 none = Except.error () :=
  ⟨rfl, rfl, rfl, rfl, rfl, rfl, rfl, rfl, rfl⟩

/-- C5 counterexample: in the second Template 1 variant a missing artist
raises a TypeError (the render errors instead of substituting a
placeholder), and for a missing release date Template 2 draws nothing at
all — no fixed placeholder string is substituted. -/
theorem optional_fields_cex :
    artistLabel1v2 none = Except.error () ∧
    drawInfoBlock (("Release Date").toList) none = [] :=
  ⟨rfl, rfl⟩

/-! ### Empty tracklist behaviour (claim C6) -/

/-- C6: for an album whose tracks list is empty or absent, no iteration
of the tracklist auto-fit loop executes (the typography stays at its
initial value), the tracklist region receives nothing in Template 1 and
the fixed fallback string `"No tracks available"` in Template 2, while
the cover, title and artist are still rendered in both templates. -/
theorem empty_tracks_behavior (u : Char → ℚ) (album : Album)
    (canvasWidth canvasHeight : ℚ) {α : Type} (palette : List α) (fuel : ℕ)
    (h : album.tracks = none ∨ album.tracks = some []) :
    ((drawPosterTemplate1 u album canvasWidth canvasHeight palette fuel).trackTexts = [] ∧
     (drawPosterTemplate1 u album canvasWidth canvasHeight palette fuel).finalTypo
        = initTypo1 (canvasWidth / 2480) ∧
     (drawPosterTemplate1 u album canvasWidth canvasHeight palette fuel).coverDrawn = true ∧
     (drawPosterTemplate1 u album canvasWidth canvasHeight palette fuel).titleText
        = album.name.map Char.toUpper ∧
     (drawPosterTemplate1 u album canvasWidth canvasHeight palette fuel).artistText
        = artistLabel1 album.artist ∧
     (drawPosterTemplate1 u album canvasWidth canvasHeight palette fuel).yearText
        = yearLabel album.year) ∧
    ((drawPosterTemplate2 u album canvasWidth canvasHeight palette fuel).trackTexts = [] ∧
     (drawPosterTemplate2 u album canvasWidth canvasHeight palette fuel).fallbackText
        = some NO_TRACKS ∧
     (drawPosterTemplate2 u album canvasWidth canvasHeight palette fuel).finalTypo
        = initTypo2 (canvasWidth / 2480) ∧
     (drawPosterTemplate2 u album canvasWidth canvasHeight palette fuel).coverDrawn = true ∧
     (drawPosterTemplate2 u album canvasWidth canvasHeight palette fuel).titleText
        = album.name ∧
     (drawPosterTemplate2 u album canvasWidth canvasHeight palette fuel).artistText
        = artistLabel2 album.artist) := by
  have hb : hasTracks album = false := by
    rcases h with h | h <;> simp [hasTracks, h]
  refine ⟨⟨?_, ?_, ?_, ?_, ?_, ?_⟩, ⟨?_, ?_, ?_, ?_, ?_, ?_⟩⟩ <;>
    simp [drawPosterTemplate1, drawPosterTemplate2, hb]

theorem empty_tracks_behavior_witness :
    ((drawPosterTemplate1 (fun _ => (1 : ℚ))
        ⟨("T").toList, some (("A").toList), none, none, none, none, none⟩
        2480 3508 ([0, 1] : List ℕ) 0).trackTexts = [] ∧
     (drawPosterTemplate1 (fun _ => (1 : ℚ))
        ⟨("T").toList, some (("A").toList), none, none, none, none, none⟩
        2480 3508 ([0, 1] : List ℕ) 0).finalTypo = initTypo1 (2480 / 2480) ∧
     (drawPosterTemplate1 (fun _ => (1 : ℚ))
        ⟨("T").toList, some (("A").toList), none, none, none, none, none⟩
        2480 3508 ([0, 1] : List ℕ) 0).coverDrawn = true ∧
     (drawPosterTemplate1 (fun _ => (1 : ℚ))
        ⟨("T").toList, some (("A").toList), none, none, none, none, none⟩
        2480 3508 ([0, 1] : List ℕ) 0).titleText = (("T").toList).map Char.toUpper ∧
     (drawPosterTemplate1 (fun _ => (1 : ℚ))
        ⟨("T").toList, some (("A").toList), none, none, none, none, none⟩
        2480 3508 ([0, 1] : List ℕ) 0).artistText = artistLabel1 (some (("A").toList)) ∧
     (drawPosterTemplate1 (fun _ => (1 : ℚ))
        ⟨("T").toList, some (("A").toList), none, none, none, none, none⟩
        2480 3508 ([0, 1] : List ℕ) 0).yearText = yearLabel none) ∧
    ((drawPosterTemplate2 (fun _ => (1 : ℚ))
        ⟨("T").toList, some (("A").toList), none, none, none, none, none⟩
        2480 3508 ([0, 1] : List ℕ) 0).trackTexts = [] ∧
     (drawPosterTemplate2 (fun _ => (1 : ℚ))
        ⟨("T").toList, some (("A").toList), none, none, none, none, none⟩
        2480 3508 ([0, 1] : List ℕ) 0).fallbackText = some NO_TRACKS ∧
     (drawPosterTemplate2 (fun _ => (1 : ℚ))
        ⟨("T").toList, some (("A").toList), none, none, none, none, none⟩
        2480 3508 ([0, 1] : List ℕ) 0).finalTypo = initTypo2 (2480 / 2480) ∧
     (drawPosterTemplate2 (fun _ => (1 : ℚ))
        ⟨("T").toList, some (("A").toList), none, none, none, none, none⟩
        2480 3508 ([0, 1] : List ℕ) 0).coverDrawn = true ∧
     (drawPosterTemplate2 (fun _ => (1 : ℚ))
        ⟨("T").toList, some (("A").toList), none, none, none, none, none⟩
        2480 3508 ([0, 1] : List ℕ) 0).titleText = ("T").toList ∧
     (drawPosterTemplate2 (fun _ => (1 : ℚ))
        ⟨("T").toList, some (("A").toList), none, none, none, none, none⟩
        2480 3508 ([0, 1] : List ℕ) 0).artistText = artistLabel2 (some (("A").toList))) :=
  empty_tracks_behavior (fun _ => 1)
    ⟨("T").toList, some (("A").toList), none, none, none, none, none⟩
    2480 3508 ([0, 1] : List ℕ) 0 (Or.inl rfl)

/-! ### Palette footer subdivision (claim C9) -/

theorem sum_map_fixed {β : Type} (l : List β) (c : ℚ) :
    (l.map (fun _ => c)).sum = (l.length : ℚ) * c := by
  induction l with
  | nil => simp
  | cons x l ih =>
    simp only [List.map_cons, List.sum_cons, List.length_cons, ih]
    push_cast
    ring

/-- C9: for a palette of length N the Template 1 footer strip is filled
with N equal-width segments in palette order, contiguous (each segment
starts exactly where the previous one ends), whose widths sum to exactly
the footer width `canvasWidth − 2·padding` in exact arithmetic. -/
theorem palette_footer_subdivision (canvasWidth scale : ℚ) {α : Type}
    (colors : List α) (hne : colors ≠ []) :
    ((footerRects canvasWidth scale colors).map (fun r => r.2.1)).sum
      = canvasWidth - 2 * (110 * scale) ∧
    (∀ r ∈ footerRects canvasWidth scale colors,
      r.2.1 = (canvasWidth - (110 * scale) * 2) / (colors.length : ℚ)) ∧
    (footerRects canvasWidth scale colors).map (fun r => r.2.2) = colors ∧
    (∀ (i : ℕ) (hi : i + 1 < (footerRects canvasWidth scale colors).length),
      ((footerRects canvasWidth scale colors).get ⟨i + 1, hi⟩).1
        = ((footerRects canvasWidth scale colors).get ⟨i, by omega⟩).1
          + (canvasWidth - (110 * scale) * 2) / (colors.length : ℚ)) := by
  have hlen0 : colors.length ≠ 0 := fun hh => hne (List.length_eq_zero.mp hh)
  have hlenQ : (colors.length : ℚ) ≠ 0 := Nat.cast_ne_zero.mpr hlen0
  refine ⟨?_, ?_, ?_, ?_⟩
  · unfold footerRects
    rw [List.map_map]
    rw [show ((fun (r : ℚ × ℚ × α) => r.2.1) ∘ fun p : ℕ × α =>
        (110 * scale + (p.1 : ℚ) * ((canvasWidth - (110 * scale) * 2) / (colors.length : ℚ)),
         (canvasWidth - (110 * scale) * 2) / (colors.length : ℚ), p.2))
        = fun _ => (canvasWidth - (110 * scale) * 2) / (colors.length : ℚ) from rfl]
    rw [sum_map_fixed, List.enum_length]
    field_simp
    ring
  · intro r hr
    unfold footerRects at hr
    obtain ⟨p, _, rfl⟩ := List.mem_map.mp hr
    rfl
  · unfold footerRects
    rw [List.map_map]
    rw [show ((fun (r : ℚ × ℚ × α) => r.2.2) ∘ fun p : ℕ × α =>
        (110 * scale + (p.1 : ℚ) * ((canvasWidth - (110 * scale) * 2) / (colors.length : ℚ)),
         (canvasWidth - (110 * scale) * 2) / (colors.length : ℚ), p.2))
        = fun p : ℕ × α => p.2 from rfl]
    exact List.enum_map_snd colors
  · intro i hi
    have hi2 : i + 1 < colors.enum.length := by
      simpa [footerRects] using hi
    have hi3 : i < colors.enum.length := by omega
    simp only [footerRects, List.get_eq_getElem, List.getElem_map]
    rw [List.getElem_enum, List.getElem_enum]
    push_cast
    ring

theorem palette_footer_subdivision_witness :
    ((footerRects 2480 1 ([0, 1, 2] : List ℕ)).map (fun r => r.2.1)).sum
      = 2480 - 2 * (110 * 1) ∧
    (footerRects 2480 1 ([0, 1, 2] : List ℕ)).map (fun r => r.2.2) = [0, 1, 2] :=
  ⟨(palette_footer_subdivision 2480 1 [0, 1, 2] (by decide)).1,
   (palette_footer_subdivision 2480 1 [0, 1, 2] (by decide)).2.2.1⟩

/-! ### Unknown paper format fallback (claim C10) -/

/-- C10: for every format string that is not a known paper format,
`getCanvasSize` and `getPaperSizeMM` silently fall back to the A4
dimensions (210 mm × 297 mm) and then apply the requested orientation
and DPI conversion to those dimensions. -/
theorem unknown_format_falls_back_to_a4 (format : String) (dpi : ℚ)
    (orientation : String) (h : PAPER_MM format = none) :
    getCanvasSize format dpi orientation = getCanvasSize ("A4") dpi orientation ∧
    getPaperSizeMM format orientation = getPaperSizeMM ("A4") orientation ∧
    getPaperSizeMM format ("portrait") = (210, 297) ∧
    getPaperSizeMM format ("landscape") = (297, 210) ∧
    getCanvasSize format dpi ("portrait")
      = (round ((210 : ℚ) / 25.4 * dpi), round ((297 : ℚ) / 25.4 * dpi)) := by
  have hA4 : PAPER_MM ("A4") = some (210, 297) := rfl
  refine ⟨?_, ?_, ?_, ?_, ?_⟩ <;>
    simp [getCanvasSize, getPaperSizeMM, mmToPx, h, hA4]

theorem unknown_format_falls_back_to_a4_witness :
    getCanvasSize ("Letter") 300 ("portrait") = getCanvasSize ("A4") 300 ("portrait") ∧
    getPaperSizeMM ("Letter") ("portrait") = getPaperSizeMM ("A4") ("portrait") ∧
    getPaperSizeMM ("Letter") ("portrait") = (210, 297) ∧
    getPaperSizeMM ("Letter") ("landscape") = (297, 210) ∧
    getCanvasSize ("Letter") 300 ("portrait")
      = (round ((210 : ℚ) / 25.4 * 300), round ((297 : ℚ) / 25.4 * 300)) :=
  unknown_format_falls_back_to_a4 ("Letter") 300 ("portrait") rfl

end AlbumPoster
